import Mathlib

/-!
# LibraNexus: verification of the event-sourced consistency engine

Shallow embedding of the core of the LibraNexus repository:

* `go-eventstore/eventstore.go` — the aggregate log store (`AppendEvents`,
  `LoadEvents`, `GetCurrentVersion`, `SaveSnapshot`, `LoadSnapshot`);
* `internal/catalog/implementation.go` — the catalog service
  (`AddItem`, `GetItem`, `UpdateItemCopies`, `RemoveItem`);
* `internal/circulation/implementation.go` — the checkout/return saga
  orchestrator (`CheckoutItem`, `ReturnItem`);
* the migration DDL (`scripts` SQL in the repository): the
  `events` table has `PRIMARY KEY (aggregate_id, version)`, the `items`
  table carries `CHECK (total_copies >= 0)`, `CHECK (available >= 0)` and
  `CHECK (available <= total_copies)`, and the `checkouts` table has
  `version INT NOT NULL DEFAULT 1`.

The database is modelled as explicit state: the `events` table as a list of
rows, the `items`, `members` and `snapshots` tables as maps keyed by their
primary key, and the `checkouts` table as a list of rows (it is queried by
non-key columns).  UUIDs are modelled as `Nat`; Go `int` columns as `Int`;
the clock is an explicit `Nat` parameter measured in days, so Go's
`time.Now().AddDate(0, 0, 14)` is `now + 14`.  Infrastructure faults that
do not depend on the data (network errors, a failing `BeginTx` or
`Prepare`) are not modelled except where a claim injects them, in which
case an explicit Boolean fault flag stands for the injected failure.
-/

namespace LibraNexus

/-- Serialized event payloads.  The Go code stores `event_data` as opaque
JSON bytes produced by `json.Marshal`; each constructor mirrors one of the
payload structs the repository marshals (`ItemAddedEvent`,
`ItemCopiesUpdatedEvent`, `ItemRemovedEvent`, `ItemCheckedOutEvent`,
`ItemReturnedEvent`), plus `raw` for caller-supplied bytes. -/
inductive Payload where
  | itemAdded (id : Nat) (isbn title author : String) (totalCopies : Int)
  | itemCopiesUpdated (id : Nat) (newTotal newAvailable : Int)
  | itemRemoved (id : Nat) (status : String)
  | itemCheckedOut (checkoutID memberID itemID dueDate : Nat)
  | itemReturned (checkoutID memberID itemID returnDate : Nat)
  | raw (bytes : String)
deriving Repr, DecidableEq

/-- A row of the `events` table (struct `Event` in `eventstore.go`):
global serial `id`, aggregate identity, aggregate type, event type,
payload, metadata, per-aggregate version, creation time. -/
structure Event where
  id : Nat
  aggregateID : Nat
  aggregateType : String
  eventType : String
  eventData : Payload
  metadata : String
  version : Int
  createdAt : Nat
deriving Repr, DecidableEq

/-- The `events` table. -/
abbrev EventDB := List Event

/-- The error values declared at the top of `eventstore.go`
(`ErrConcurrencyConflict`, `ErrAggregateNotFound`, `ErrInvalidVersion`)
together with the wrapped generic storage errors the file produces with
`fmt.Errorf` (transaction, prepare and non-unique-constraint insert
failures). -/
inductive ESError where
  | concurrencyConflict
  | aggregateNotFound
  | invalidVersion
  | storageFailure (msg : String)
deriving Repr, DecidableEq

/-- Versions of all rows of `aggregateID = agg`, in table order. -/
def aggVersions (db : EventDB) (agg : Nat) : List Int :=
  (db.filter (fun r => r.aggregateID == agg)).map (fun r => r.version)

/-- `SELECT COALESCE(MAX(version), 0) FROM events WHERE aggregate_id = $1`:
the maximum version among the aggregate's rows, `0` when it has none. -/
def maxVersion (db : EventDB) (agg : Nat) : Int :=
  match aggVersions db agg with
  | [] => 0
  | v :: vs => vs.foldl max v

/-- Whether a row with key `(agg, v)` exists — the `PRIMARY KEY
(aggregate_id, version)` uniqueness test. -/
def hasEvent (db : EventDB) (agg : Nat) (v : Int) : Bool :=
  db.any (fun r => r.aggregateID == agg && r.version == v)

/-- Number of rows with aggregate `agg` and version `v` (the schema's
uniqueness constraint demands this never exceeds 1). -/
def versionCount (db : EventDB) (agg : Nat) (v : Int) : Nat :=
  (aggVersions db agg).count v

/-- The insert loop of `AppendEvents`: event `i` (0-based) is inserted with
version `expected + i + 1`; a violation of the `(aggregate_id, version)`
uniqueness constraint is reported as `ErrConcurrencyConflict` (the
`pq.Error` code 23505 branch), which rolls the transaction back, so the
caller's state is unchanged on error. -/
def insertEvents (agg : Nat) (aggType : String) (expected : Int) (now : Nat) :
    EventDB → List Event → Nat → Except ESError EventDB
  | db, [], _ => .ok db
  | db, e :: rest, i =>
    if hasEvent db agg (expected + (i : Int) + 1) then
      .error .concurrencyConflict
    else
      insertEvents agg aggType expected now
        ({ id := db.length, aggregateID := agg, aggregateType := aggType,
           eventType := e.eventType, eventData := e.eventData,
           metadata := e.metadata, version := expected + (i : Int) + 1,
           createdAt := now } :: db)
        rest (i + 1)

/-- `AppendEvents`, split into the state read by the initial
`COALESCE(MAX(version), 0)` version check (`checkDb`) and the state the
inserts run against (`insertDb`).  In a serial execution the two
coincide (`appendEvents` below); a concurrent committer between the read
and the inserts is modelled by letting `insertDb` extend `checkDb`. -/
def appendEventsFrom (checkDb insertDb : EventDB) (agg : Nat) (aggType : String)
    (expected : Int) (events : List Event) (now : Nat) : Except ESError EventDB :=
  if maxVersion checkDb agg ≠ expected then .error .concurrencyConflict
  else insertEvents agg aggType expected now insertDb events 0

/-- `AppendEvents` of `eventstore.go`, serial execution: version check then
the insert loop, all against one state. -/
def appendEvents (db : EventDB) (agg : Nat) (aggType : String)
    (expected : Int) (events : List Event) (now : Nat) : Except ESError EventDB :=
  appendEventsFrom db db agg aggType expected events now

/-- Insertion step of the `ORDER BY version ASC` sort. -/
def insertByVersion (e : Event) : List Event → List Event
  | [] => [e]
  | x :: xs => if e.version ≤ x.version then e :: x :: xs else x :: insertByVersion e xs

/-- `ORDER BY version ASC` on a list of rows. -/
def sortByVersion : List Event → List Event
  | [] => []
  | x :: xs => insertByVersion x (sortByVersion xs)

/-- `LoadEvents`: all rows of the aggregate with `version >= fromVersion`
and, only when `toVersion > 0`, `version <= toVersion`, ordered by version
ascending.  A pure read: it has no side effects on the store. -/
def loadEvents (db : EventDB) (agg : Nat) (fromVersion toVersion : Int) : List Event :=
  sortByVersion (db.filter (fun r =>
    r.aggregateID == agg && decide (fromVersion ≤ r.version) &&
      (!decide (0 < toVersion) || decide (r.version ≤ toVersion))))

/-- `GetCurrentVersion`: same query as the append-path version check. -/
def getCurrentVersion (db : EventDB) (agg : Nat) : Int :=
  maxVersion db agg

/-- A row of the `snapshots` table (struct `Snapshot` in `eventstore.go`). -/
structure Snapshot where
  aggregateID : Nat
  aggregateType : String
  version : Int
  state : String
  createdAt : Nat
deriving Repr, DecidableEq

/-- The `snapshots` table, keyed by its primary key `aggregate_id`. -/
abbrev SnapshotDB := Nat → Option Snapshot

/-- `SaveSnapshot`: `INSERT ... ON CONFLICT (aggregate_id) DO UPDATE SET
version, state, created_at ... WHERE snapshots.version < EXCLUDED.version`.
Note the conditional update writes only `version`, `state` and
`created_at`; the stored `aggregate_type` is kept. -/
def saveSnapshot (tbl : SnapshotDB) (s : Snapshot) (now : Nat) : SnapshotDB :=
  fun a =>
    if a = s.aggregateID then
      match tbl s.aggregateID with
      | none => some { s with createdAt := now }
      | some old =>
        if old.version < s.version then
          some { old with version := s.version, state := s.state, createdAt := now }
        else
          some old
    else tbl a

/-- `LoadSnapshot`: point read on the primary key; absence is `none`,
not an error. -/
def loadSnapshot (tbl : SnapshotDB) (agg : Nat) : Option Snapshot :=
  tbl agg

/-- A row of the `items` read-model table (struct `Item` in
`internal/catalog/domain.go`; optional MARC columns omitted). -/
structure Item where
  id : Nat
  isbn : String
  title : String
  author : String
  totalCopies : Int
  available : Int
  status : String
  version : Int
  createdAt : Nat
  updatedAt : Nat
deriving Repr, DecidableEq

/-- A row of the `members` table, restricted to the columns the
circulation saga reads through `MembershipClient.GetMember`
(`internal/membership/domain.go`).  `fine_balance` is a non-negative
`DECIMAL`, modelled in cents. -/
structure Member where
  id : Nat
  status : String
  fineBalance : Int
deriving Repr, DecidableEq

/-- A row of the `checkouts` read-model table (struct `Checkout` in
`internal/circulation/domain.go`).  `version` has `DEFAULT 1` in the DDL. -/
structure CheckoutRow where
  id : Nat
  memberID : Nat
  itemID : Nat
  checkoutDate : Nat
  dueDate : Nat
  returnDate : Option Nat
  status : String
  version : Int
  updatedAt : Nat
deriving Repr, DecidableEq

/-- Whole-database state shared by the services: the `events` table, and
the `items`, `members` (keyed by primary key) and `checkouts` read models. -/
structure SysState where
  events : EventDB
  items : Nat → Option Item
  members : Nat → Option Member
  checkouts : List CheckoutRow

/-- The empty database. -/
def SysState.empty : SysState :=
  { events := [], items := fun _ => none, members := fun _ => none, checkouts := [] }

/-- Errors surfaced by the catalog and circulation services: row lookups
that hit `sql.ErrNoRows`, the two business validations of the checkout
saga, a wrapped event-store error, and generic SQL errors of the
read-model statements (constraint violations, injected faults). -/
inductive SvcError where
  | notFound
  | memberNotEligible
  | itemNotAvailable
  | eventStoreErr (e : ESError)
  | sqlFailure
deriving Repr, DecidableEq

/-- The `CHECK` constraints the migration DDL places on `items` rows:
`total_copies >= 0`, `available >= 0`, `available <= total_copies`, and
`status IN ('active', 'retired', 'lost', 'damaged')`.  Every `INSERT` or
`UPDATE` whose new row fails one of these errors out without writing. -/
def itemRowOK (total available : Int) (status : String) : Bool :=
  decide (0 ≤ total) && decide (0 ≤ available) && decide (available ≤ total) &&
    ["active", "retired", "lost", "damaged"].contains status

/-- `GetItem` of the catalog service: point read of the `items` row
(`sql.ErrNoRows` becomes an item-not-found error). -/
def getItem (st : SysState) (id : Nat) : Except SvcError Item :=
  match st.items id with
  | some it => .ok it
  | none => .error .notFound

/-- `AddItem` of the catalog service: append an `ItemAdded` event with
`expectedVersion = 0` to the fresh aggregate `id` (Go draws `id` from
`uuid.New()`; here it is a parameter), then `INSERT` the read-model row
with `available = totalCopies`, `status = 'active'`, `version = 1`.  The
insert is subject to the `items` primary key and `CHECK` constraints; when
it fails the already-committed event remains. -/
def addItem (st : SysState) (id : Nat) (isbn title author : String)
    (totalCopies : Int) (now : Nat) : SysState × Except SvcError Item :=
  match appendEvents st.events id "item" 0
      [{ id := 0, aggregateID := id, aggregateType := "item", eventType := "ItemAdded",
         eventData := .itemAdded id isbn title author totalCopies, metadata := "",
         version := 1, createdAt := 0 }] now with
  | .error e => (st, .error (.eventStoreErr e))
  | .ok events' =>
    let st1 := { st with events := events' }
    let item : Item :=
      { id := id, isbn := isbn, title := title, author := author,
        totalCopies := totalCopies, available := totalCopies,
        status := "active", version := 1, createdAt := now, updatedAt := now }
    if (st1.items id).isSome then
      (st1, .error .sqlFailure)
    else if itemRowOK totalCopies totalCopies "active" then
      ({ st1 with items := fun k => if k = id then some item else st1.items k }, .ok item)
    else
      (st1, .error .sqlFailure)

/-- `UpdateItemCopies` of the catalog service: read the row, append an
`ItemCopiesUpdated` event using the row's own `version` as the expected
version, then `UPDATE items SET total_copies, available,
version = version + 1 WHERE id = $3 AND version = $4`.  The `UPDATE` is
subject to the `CHECK` constraints (a violating statement errors without
writing); an `UPDATE` matching zero rows reports no error.  Note the new
copy counts are the caller's absolute values: no caller-supplied expected
version exists in this signature. -/
def updateItemCopies (st : SysState) (id : Nat) (newTotal newAvailable : Int)
    (now : Nat) : SysState × Except SvcError Unit :=
  match st.items id with
  | none => (st, .error .notFound)
  | some item =>
    match appendEvents st.events id "item" item.version
        [{ id := 0, aggregateID := id, aggregateType := "item",
           eventType := "ItemCopiesUpdated",
           eventData := .itemCopiesUpdated id newTotal newAvailable, metadata := "",
           version := item.version + 1, createdAt := 0 }] now with
    | .error e => (st, .error (.eventStoreErr e))
    | .ok events' =>
      let st1 := { st with events := events' }
      -- the row is unchanged between this call's SELECT and its UPDATE,
      -- so the `WHERE id = $3 AND version = $4` clause matches `item`
      let item' : Item :=
        { item with
          totalCopies := newTotal, available := newAvailable,
          version := item.version + 1, updatedAt := now }
      if itemRowOK newTotal newAvailable item.status then
        ({ st1 with items := fun k => if k = id then some item' else st1.items k }, .ok ())
      else
        (st1, .error .sqlFailure)

/-- `RemoveItem` of the catalog service: append an `ItemRemoved` event,
then `UPDATE items SET status = 'retired', version = version + 1
WHERE id = $1 AND version = $2`. -/
def removeItem (st : SysState) (id : Nat) (now : Nat) :
    SysState × Except SvcError Unit :=
  match st.items id with
  | none => (st, .error .notFound)
  | some item =>
    match appendEvents st.events id "item" item.version
        [{ id := 0, aggregateID := id, aggregateType := "item",
           eventType := "ItemRemoved", eventData := .itemRemoved id "retired",
           metadata := "", version := item.version + 1, createdAt := 0 }] now with
    | .error e => (st, .error (.eventStoreErr e))
    | .ok events' =>
      let st1 := { st with events := events' }
      let item' : Item :=
        { item with status := "retired", version := item.version + 1, updatedAt := now }
      if itemRowOK item.totalCopies item.available "retired" then
        ({ st1 with items := fun k => if k = id then some item' else st1.items k }, .ok ())
      else
        (st1, .error .sqlFailure)

/-- `MembershipClient.GetMember` as seen by the saga: point read of the
`members` row. -/
def getMember (st : SysState) (id : Nat) : Except SvcError Member :=
  match st.members id with
  | some m => .ok m
  | none => .error .notFound

/-- The compensation closure `CheckoutItem` binds after the inventory
decrement commits: call `UpdateItemCopies` with the originally-read
`item.TotalCopies` and `item.Available` to restore the count.  Its own
error, if any, is only logged (best effort), so just the state survives. -/
def compensateCheckout (st : SysState) (itemID : Nat) (total availOrig : Int)
    (now : Nat) : SysState :=
  (updateItemCopies st itemID total availOrig now).1

/-- `CheckoutItem`, the checkout saga of
`internal/circulation/implementation.go`.

1. Validate the member (`status == "active"`, `FineBalance <= 0`).
2. Read the item; fail when `Available <= 0`.
3. Decrement availability through `UpdateItemCopies` — note the call
   passes only the absolute values `item.TotalCopies, item.Available - 1`.
4. Append an `ItemCheckedOut` event to the fresh checkout aggregate
   (`expectedVersion = 0`), due date `now + 14` days; on failure run the
   bound compensation.
5. `INSERT` the checkout read-model row (its `version` column takes the
   DDL default 1; the returned Go struct's `Version` stays at the zero
   value 0); on failure run the bound compensation.

`failAppend` / `failInsert` inject an infrastructure failure into the
event append and the read-model insert of the Recording step (the fault
points of the saga's chaos scenario); the non-faulty service is
`checkoutItem st m i cid now false false`. -/
def checkoutItem (st : SysState) (memberID itemID cid now : Nat)
    (failAppend failInsert : Bool) : SysState × Except SvcError CheckoutRow :=
  match getMember st memberID with
  | .error e => (st, .error e)
  | .ok member =>
    if member.status ≠ "active" ∨ member.fineBalance > 0 then
      (st, .error .memberNotEligible)
    else
      match getItem st itemID with
      | .error e => (st, .error e)
      | .ok item =>
        if item.available ≤ 0 then
          (st, .error .itemNotAvailable)
        else
          match updateItemCopies st itemID item.totalCopies (item.available - 1) now with
          | (st1, .error e) => (st1, .error e)
          | (st1, .ok _) =>
            let dueDate := now + 14
            if failAppend then
              (compensateCheckout st1 itemID item.totalCopies item.available now,
                .error .sqlFailure)
            else
              match appendEvents st1.events cid "checkout" 0
                  [{ id := 0, aggregateID := cid, aggregateType := "checkout",
                     eventType := "ItemCheckedOut",
                     eventData := .itemCheckedOut cid memberID itemID dueDate,
                     metadata := "", version := 1, createdAt := 0 }] now with
              | .error e =>
                (compensateCheckout st1 itemID item.totalCopies item.available now,
                  .error (.eventStoreErr e))
              | .ok events' =>
                let st2 := { st1 with events := events' }
                let checkout : CheckoutRow :=
                  { id := cid, memberID := memberID, itemID := itemID,
                    checkoutDate := now, dueDate := dueDate, returnDate := none,
                    status := "active", version := 0, updatedAt := now }
                if failInsert ∨ st2.checkouts.any (fun c => c.id == cid) then
                  (compensateCheckout st2 itemID item.totalCopies item.available now,
                    .error .sqlFailure)
                else
                  ({ st2 with checkouts := { checkout with version := 1 } :: st2.checkouts },
                    .ok checkout)

/-- `getActiveCheckout`: `SELECT id, version FROM checkouts WHERE
member_id = $1 AND item_id = $2 AND status = 'active'` (first matching
row). -/
def getActiveCheckout (st : SysState) (memberID itemID : Nat) :
    Except SvcError CheckoutRow :=
  match st.checkouts.find? (fun c =>
      c.memberID == memberID && c.itemID == itemID && c.status == "active") with
  | some c => .ok c
  | none => .error .notFound

/-- `ReturnItem` of `internal/circulation/implementation.go`.

1. Find the active checkout row for `(memberID, itemID)`.
2. Read the item; increment availability through `UpdateItemCopies`
   (absolute values `item.TotalCopies, item.Available + 1`).
3. Append an `ItemReturned` event to the checkout aggregate with the
   row's `version` as the expected version; on failure compensate by
   setting the count back to `item.Available` (best effort) and fail.
4. `UPDATE checkouts SET status = 'returned', return_date = $1,
   updated_at = NOW() WHERE id = $2`. -/
def returnItem (st : SysState) (memberID itemID now : Nat) :
    SysState × Except SvcError Unit :=
  match getActiveCheckout st memberID itemID with
  | .error e => (st, .error e)
  | .ok checkout =>
    match getItem st itemID with
    | .error e => (st, .error e)
    | .ok item =>
      match updateItemCopies st itemID item.totalCopies (item.available + 1) now with
      | (st1, .error e) => (st1, .error e)
      | (st1, .ok _) =>
        match appendEvents st1.events checkout.id "checkout" checkout.version
            [{ id := 0, aggregateID := checkout.id, aggregateType := "checkout",
               eventType := "ItemReturned",
               eventData := .itemReturned checkout.id memberID itemID now,
               metadata := "", version := checkout.version + 1, createdAt := 0 }] now with
        | .error e =>
          ((updateItemCopies st1 itemID item.totalCopies item.available now).1,
            .error (.eventStoreErr e))
        | .ok events' =>
          let st2 := { st1 with events := events' }
          ({ st2 with checkouts := st2.checkouts.map (fun c =>
                if c.id = checkout.id then
                  { c with status := "returned", returnDate := some now, updatedAt := now }
                else c) }, .ok ())

/-- The committed versions of aggregate `agg` are exactly `1 … maxVersion`
(the spec's gapless-sequence invariant, as a predicate on one aggregate). -/
def gapless (db : EventDB) (agg : Nat) : Prop :=
  ∀ v : Int, hasEvent db agg v = true ↔ (1 ≤ v ∧ v ≤ maxVersion db agg)

/-- Store well-formedness: for every aggregate, each version in
`1 … maxVersion` appears on exactly one row and no other version appears
(gaplessness together with the uniqueness of `(aggregate_id, version)`). -/
def storeWF (db : EventDB) : Prop :=
  ∀ agg v, versionCount db agg v = if 1 ≤ v ∧ v ≤ maxVersion db agg then 1 else 0

/-- Event-store states reachable from the empty store by successful
(serially committed) `AppendEvents` calls, with arbitrary arguments. -/
inductive ESReachable : EventDB → Prop where
  | empty : ESReachable []
  | append (db : EventDB) (agg : Nat) (t : String) (e : Int) (evs : List Event)
      (now : Nat) (db' : EventDB) (hprev : ESReachable db)
      (hok : appendEvents db agg t e evs now = .ok db') : ESReachable db'

/-- System states reachable from the empty database through the service
operations: member rows appearing (the membership service, modelled
coarsely since it never touches inventory), the catalog write paths
(`AddItem`, `UpdateItemCopies`, `RemoveItem`) and the circulation sagas
(`CheckoutItem` with arbitrary injected faults, `ReturnItem`). -/
inductive SysReachable : SysState → Prop where
  | empty : SysReachable SysState.empty
  | addMember (st : SysState) (m : Member) (hprev : SysReachable st) :
      SysReachable { st with members := fun k => if k = m.id then some m else st.members k }
  | addItem (st : SysState) (id : Nat) (isbn title author : String)
      (tc : Int) (now : Nat) (hprev : SysReachable st) :
      SysReachable (addItem st id isbn title author tc now).1
  | updateItemCopies (st : SysState) (id : Nat) (nt na : Int) (now : Nat)
      (hprev : SysReachable st) :
      SysReachable (updateItemCopies st id nt na now).1
  | removeItem (st : SysState) (id : Nat) (now : Nat) (hprev : SysReachable st) :
      SysReachable (removeItem st id now).1
  | checkoutItem (st : SysState) (memberID itemID cid now : Nat)
      (failAppend failInsert : Bool) (hprev : SysReachable st) :
      SysReachable (checkoutItem st memberID itemID cid now failAppend failInsert).1
  | returnItem (st : SysState) (memberID itemID now : Nat) (hprev : SysReachable st) :
      SysReachable (returnItem st memberID itemID now).1

/-- Input event as a caller of `AppendEvents` builds it: only `EventType`,
`EventData` and `Metadata` are read by the store (test events in
`eventstore_test.go` set exactly these). -/
def testEvent (ty : String) (bytes : String) : Event :=
  { id := 0, aggregateID := 0, aggregateType := "", eventType := ty,
    eventData := .raw bytes, metadata := "", version := 0, createdAt := 0 }

/-- Ignore-error append, used to build concrete sample stores. -/
def appendOk (db : EventDB) (agg : Nat) (t : String) (e : Int)
    (evs : List Event) (now : Nat) : EventDB :=
  match appendEvents db agg t e evs now with
  | .ok db' => db'
  | .error _ => db

/-- A store holding five appended events (versions 1–5) of aggregate 7,
the store of the spec's `load(aggregateId, 2, 0)` scenario. -/
def sampleStore : EventDB :=
  appendOk (appendOk (appendOk (appendOk (appendOk [] 7 "agg" 0
    [testEvent "E" "one"] 0) 7 "agg" 1 [testEvent "E" "two"] 0) 7 "agg" 2
    [testEvent "E" "three"] 0) 7 "agg" 3 [testEvent "E" "four"] 0) 7 "agg" 4
    [testEvent "E" "five"] 0

/-- Concrete stored row: version 1 of aggregate 1. -/
def wrowA : Event :=
  { id := 0, aggregateID := 1, aggregateType := "t", eventType := "A",
    eventData := .raw "", metadata := "", version := 1, createdAt := 0 }

/-- Concrete stored row: version 2 of aggregate 1. -/
def wrowB : Event :=
  { id := 1, aggregateID := 1, aggregateType := "t", eventType := "B",
    eventData := .raw "", metadata := "", version := 2, createdAt := 0 }

/-- One-row store holding `wrowA`. -/
def wdbA : EventDB := [wrowA]

/-- Two-row store holding versions 1 and 2 of aggregate 1. -/
def wdbAB : EventDB := [wrowB, wrowA]

/-- The inventory-bound invariant of the spec, on the `items` read model:
every stored row satisfies `0 ≤ available ≤ total_copies`. -/
def itemsInv (st : SysState) : Prop :=
  ∀ id it, st.items id = some it → 0 ≤ it.available ∧ it.available ≤ it.totalCopies

/-- Concrete inventory item: 2 copies, 2 available, version 1. -/
def wItem : Item :=
  { id := 1, isbn := "isbn", title := "title", author := "author",
    totalCopies := 2, available := 2, status := "active", version := 1,
    createdAt := 0, updatedAt := 0 }

/-- The `ItemAdded` event row backing `wItem` in the event store. -/
def wrowItem : Event :=
  { id := 0, aggregateID := 1, aggregateType := "item", eventType := "ItemAdded",
    eventData := .itemAdded 1 "isbn" "title" "author" 2, metadata := "",
    version := 1, createdAt := 0 }

/-- Concrete active member with no outstanding fines. -/
def wMember : Member := { id := 2, status := "active", fineBalance := 0 }

/-- Concrete database: one item (2 copies available), one active member,
no checkouts, event store in sync with the item row. -/
def wSys : SysState :=
  { events := [wrowItem],
    items := fun k => if k = 1 then some wItem else none,
    members := fun k => if k = 2 then some wMember else none,
    checkouts := [] }

/-- `wItem` after an interfering committed decrement (version 2,
1 available). -/
def wItemV2 : Item :=
  { wItem with available := 1, version := 2, updatedAt := 10 }

/-- The item row after the stale-read decrement is applied on top of the
interference: version 3, still 1 available — the interfering decrement is
lost. -/
def wItemV3 : Item :=
  { wItem with available := 1, version := 3, updatedAt := 11 }

/-- The `items` row created by `AddItem` on the empty database with
3 copies. -/
def wAddedItem : Item :=
  { id := 1, isbn := "i", title := "t", author := "a", totalCopies := 3,
    available := 3, status := "active", version := 1, createdAt := 0, updatedAt := 0 }

/-- The checkout record returned by `CheckoutItem` on `wSys` at time 40
(the Go struct's `Version` field keeps its zero value). -/
def wCheckoutRec : CheckoutRow :=
  { id := 5, memberID := 2, itemID := 1, checkoutDate := 40, dueDate := 54,
    returnDate := none, status := "active", version := 0, updatedAt := 40 }

/-- An `items` row after the read-model `UPDATE` of `UpdateItemCopies`:
new copy counts, version bumped, `updated_at` refreshed. -/
def appliedRow (item : Item) (nt na : Int) (now : Nat) : Item :=
  { item with
    totalCopies := nt, available := na,
    version := item.version + 1, updatedAt := now }

/-- State after a successful `UpdateItemCopies` that read row `item`:
one `ItemCopiesUpdated` event appended and the row rewritten in place. -/
def afterUpdate (st : SysState) (id : Nat) (item : Item) (nt na : Int)
    (now : Nat) : SysState :=
  { st with
    events := { id := st.events.length, aggregateID := id, aggregateType := "item",
                eventType := "ItemCopiesUpdated",
                eventData := .itemCopiesUpdated id nt na, metadata := "",
                version := item.version + 1, createdAt := now } :: st.events,
    items := fun k => if k = id then some (appliedRow item nt na now) else st.items k }

/-- State after the Recording step's event append: one `ItemCheckedOut`
event (version 1 of the fresh checkout aggregate). -/
def afterChk (st1 : SysState) (cid memberID itemID now : Nat) : SysState :=
  { st1 with
    events := { id := st1.events.length, aggregateID := cid, aggregateType := "checkout",
                eventType := "ItemCheckedOut",
                eventData := .itemCheckedOut cid memberID itemID (now + 14),
                metadata := "", version := 1, createdAt := now } :: st1.events }

/-- State after the `ItemReturned` append against expected version `v`. -/
def afterRet (st2 : SysState) (chkID memberID itemID now : Nat) (v : Int) : SysState :=
  { st2 with
    events := { id := st2.events.length, aggregateID := chkID, aggregateType := "checkout",
                eventType := "ItemReturned",
                eventData := .itemReturned chkID memberID itemID now,
                metadata := "", version := v + 1, createdAt := now } :: st2.events }

/-- The checkout row `CheckoutItem` builds (stored with `version := 1` by
the DDL default; returned with the Go zero value `version := 0`). -/
def mkCheckoutRow (cid memberID itemID now : Nat) (v : Int) : CheckoutRow :=
  { id := cid, memberID := memberID, itemID := itemID, checkoutDate := now,
    dueDate := now + 14, returnDate := none, status := "active", version := v,
    updatedAt := now }

/-! ### Elementary facts about the version maximum and the uniqueness key -/

theorem foldl_max_init_le (l : List Int) : ∀ a : Int, a ≤ l.foldl max a := by
  induction l with
  | nil => intro a; simp
  | cons c cs ih =>
    intro a
    simp only [List.foldl_cons]
    exact le_trans (le_max_left a c) (ih (max a c))

theorem le_foldl_max_of_mem (l : List Int) : ∀ (a x : Int), x ∈ l → x ≤ l.foldl max a := by
  induction l with
  | nil => simp
  | cons c cs ih =>
    intro a x hx
    simp only [List.foldl_cons]
    rcases List.mem_cons.mp hx with h | h
    · subst h; exact le_trans (le_max_right a x) (foldl_max_init_le cs (max a x))
    · exact ih (max a c) x h

theorem foldl_max_mem_or (l : List Int) : ∀ a : Int, l.foldl max a = a ∨ l.foldl max a ∈ l := by
  induction l with
  | nil => intro a; left; rfl
  | cons c cs ih =>
    intro a
    simp only [List.foldl_cons]
    rcases ih (max a c) with h | h
    · rcases le_total a c with hac | hca
      · right; rw [h, max_eq_right hac]; exact List.mem_cons_self c cs
      · left; rw [h, max_eq_left hca]
    · right; exact List.mem_cons_of_mem c h

theorem foldl_max_comm (l : List Int) : ∀ a b : Int, l.foldl max (max a b) = max a (l.foldl max b) := by
  induction l with
  | nil => intro a b; rfl
  | cons c cs ih =>
    intro a b
    simp only [List.foldl_cons]
    rw [max_assoc, ih]

theorem aggVersions_cons (r : Event) (db : EventDB) (agg : Nat) :
    aggVersions (r :: db) agg =
      if r.aggregateID = agg then r.version :: aggVersions db agg else aggVersions db agg := by
  by_cases h : r.aggregateID = agg <;> simp [aggVersions, List.filter_cons, h]

theorem le_maxVersion_of_mem {db : EventDB} {agg : Nat} {v : Int}
    (h : v ∈ aggVersions db agg) : v ≤ maxVersion db agg := by
  cases hl : aggVersions db agg with
  | nil => rw [hl] at h; simp at h
  | cons w ws =>
    rw [hl] at h
    have hm : maxVersion db agg = ws.foldl max w := by simp [maxVersion, hl]
    rw [hm]
    rcases List.mem_cons.mp h with h | h
    · subst h; exact foldl_max_init_le ws v
    · exact le_foldl_max_of_mem ws w v h

theorem maxVersion_mem {db : EventDB} {agg : Nat}
    (h : aggVersions db agg ≠ []) : maxVersion db agg ∈ aggVersions db agg := by
  cases hl : aggVersions db agg with
  | nil => exact absurd hl h
  | cons w ws =>
    have hm : maxVersion db agg = ws.foldl max w := by simp [maxVersion, hl]
    rw [hm]
    rcases foldl_max_mem_or ws w with h' | h'
    · rw [h']; exact List.mem_cons_self w ws
    · exact List.mem_cons_of_mem w h'

theorem maxVersion_empty_list {db : EventDB} {agg : Nat}
    (h : aggVersions db agg = []) : maxVersion db agg = 0 := by
  simp [maxVersion, h]

theorem maxVersion_cons_of_lt {r : Event} {db : EventDB} {agg : Nat}
    (h : r.aggregateID = agg) (hlt : maxVersion db agg < r.version) :
    maxVersion (r :: db) agg = r.version := by
  have hc := aggVersions_cons r db agg
  rw [if_pos h] at hc
  cases hl : aggVersions db agg with
  | nil => simp [maxVersion, hc, hl]
  | cons w ws =>
    have h1 : maxVersion (r :: db) agg = ws.foldl max (max r.version w) := by
      simp [maxVersion, hc, hl, List.foldl_cons]
    have h3 : maxVersion db agg = ws.foldl max w := by simp [maxVersion, hl]
    rw [h1, foldl_max_comm ws r.version w, ← h3, max_eq_left (le_of_lt hlt)]

theorem maxVersion_cons_other {r : Event} {db : EventDB} {agg : Nat}
    (h : r.aggregateID ≠ agg) : maxVersion (r :: db) agg = maxVersion db agg := by
  have hc := aggVersions_cons r db agg
  rw [if_neg h] at hc
  simp [maxVersion, hc]

theorem hasEvent_iff_mem {db : EventDB} {agg : Nat} {v : Int} :
    hasEvent db agg v = true ↔ v ∈ aggVersions db agg := by
  simp only [hasEvent, aggVersions, List.any_eq_true, List.mem_map, List.mem_filter,
    Bool.and_eq_true, beq_iff_eq]
  constructor
  · rintro ⟨r, hr, h1, h2⟩; exact ⟨r, ⟨hr, h1⟩, h2⟩
  · rintro ⟨r, ⟨hr, h1⟩, h2⟩; exact ⟨r, hr, h1, h2⟩

theorem hasEvent_cons {r : Event} {db : EventDB} {agg : Nat} {v : Int} :
    hasEvent (r :: db) agg v = ((r.aggregateID == agg && r.version == v) || hasEvent db agg v) := by
  simp [hasEvent, List.any_cons]

theorem versionCount_cons (r : Event) (db : EventDB) (agg : Nat) (v : Int) :
    versionCount (r :: db) agg v =
      versionCount db agg v + (if r.aggregateID = agg ∧ r.version = v then 1 else 0) := by
  by_cases h : r.aggregateID = agg
  · have hc := aggVersions_cons r db agg
    rw [if_pos h] at hc
    by_cases hv : r.version = v <;>
      simp [versionCount, hc, List.count_cons, h, hv]
  · have hc := aggVersions_cons r db agg
    rw [if_neg h] at hc
    simp [versionCount, hc, h]

theorem hasEvent_iff_count {db : EventDB} {agg : Nat} {v : Int} :
    hasEvent db agg v = true ↔ versionCount db agg v ≠ 0 := by
  rw [hasEvent_iff_mem]
  unfold versionCount
  rw [← List.count_pos_iff]
  omega

theorem hasEvent_false_of_gt_max {db : EventDB} {agg : Nat} {v : Int}
    (h : maxVersion db agg < v) : hasEvent db agg v = false := by
  cases hev : hasEvent db agg v
  · rfl
  · have := le_maxVersion_of_mem (hasEvent_iff_mem.mp hev)
    omega

/-! ### The insert loop of `AppendEvents` -/

theorem insertEvents_total (agg : Nat) (aggType : String) (e : Int) (now : Nat) :
    ∀ (evs : List Event) (db : EventDB) (i : Nat),
      (∃ db', insertEvents agg aggType e now db evs i = .ok db') ∨
        insertEvents agg aggType e now db evs i = .error .concurrencyConflict := by
  intro evs
  induction evs with
  | nil => intro db i; left; exact ⟨db, rfl⟩
  | cons ev rest ih =>
    intro db i
    by_cases h : hasEvent db agg (e + (i : Int) + 1) = true
    · right; simp [insertEvents, h]
    · simp only [insertEvents, h, if_false, Bool.false_eq_true]
      apply ih

/-- Full characterisation of a conflict-free run of the insert loop:
it succeeds, touches no other aggregate, and adds exactly one row for each
version in `e + i + 1 … e + i + evs.length`. -/
theorem insertEvents_spec (agg : Nat) (aggType : String) (e : Int) (now : Nat) :
    ∀ (evs : List Event) (db : EventDB) (i : Nat),
      (∀ k : Nat, i ≤ k → k < i + evs.length → hasEvent db agg (e + (k : Int) + 1) = false) →
      ∃ db', insertEvents agg aggType e now db evs i = .ok db' ∧
        (∀ a, a ≠ agg → aggVersions db' a = aggVersions db a) ∧
        (∀ v : Int, versionCount db' agg v =
          versionCount db agg v +
            (if e + (i : Int) + 1 ≤ v ∧ v ≤ e + (i : Int) + (evs.length : Int) then 1 else 0)) ∧
        (evs = [] → db' = db) ∧
        (evs ≠ [] → 0 ≤ e + (i : Int) → (∀ w ∈ aggVersions db agg, w ≤ e + (i : Int)) →
          maxVersion db' agg = e + (i : Int) + (evs.length : Int)) := by
  intro evs
  induction evs with
  | nil =>
    intro db i _
    refine ⟨db, rfl, fun _ _ => rfl, ?_, fun _ => rfl, fun h => absurd rfl h⟩
    intro v
    simp only [List.length_nil, Int.natCast_zero, add_zero]
    rw [if_neg (by omega)]
    omega
  | cons ev rest ih =>
    intro db i hfree
    have h0 : hasEvent db agg (e + (i : Int) + 1) = false :=
      hfree i (le_refl i) (by simp only [List.length_cons]; omega)
    have hfree2 : ∀ k : Nat, i + 1 ≤ k → k < (i + 1) + rest.length →
        hasEvent
          ({ id := db.length, aggregateID := agg, aggregateType := aggType,
             eventType := ev.eventType, eventData := ev.eventData,
             metadata := ev.metadata, version := e + (i : Int) + 1,
             createdAt := now } :: db) agg (e + (k : Int) + 1) = false := by
      intro k hk1 hk2
      have hik : (i : Int) < (k : Int) := by exact_mod_cast hk1
      have hvne : ¬ ((e + (i : Int) + 1) = (e + (k : Int) + 1)) := by omega
      have hdb : hasEvent db agg (e + (k : Int) + 1) = false :=
        hfree k (by omega) (by simp only [List.length_cons]; omega)
      simp [hasEvent_cons, hvne, hdb]
    obtain ⟨db', hok, hother, hcount, hnil, hmax⟩ :=
      ih ({ id := db.length, aggregateID := agg, aggregateType := aggType,
            eventType := ev.eventType, eventData := ev.eventData,
            metadata := ev.metadata, version := e + (i : Int) + 1,
            createdAt := now } :: db) (i + 1) hfree2
    have hstep : insertEvents agg aggType e now db (ev :: rest) i =
        insertEvents agg aggType e now
          ({ id := db.length, aggregateID := agg, aggregateType := aggType,
             eventType := ev.eventType, eventData := ev.eventData,
             metadata := ev.metadata, version := e + (i : Int) + 1,
             createdAt := now } :: db) rest (i + 1) := by
      simp [insertEvents, h0]
    refine ⟨db', by rw [hstep]; exact hok, ?_, ?_, by intro h; exact absurd h (by simp), ?_⟩
    · intro a ha
      rw [hother a ha, aggVersions_cons]
      simp [Ne.symm ha]
    · intro v
      rw [hcount v, versionCount_cons]
      dsimp only
      simp only [List.length_cons, true_and]
      push_cast
      split_ifs <;> omega
    · intro _ hpos hbound
      rcases eq_or_ne rest [] with hr | hr
      · have hdb' := hnil hr
        subst hr
        rw [hdb']
        have hmx : maxVersion db agg < e + (i : Int) + 1 := by
          rcases eq_or_ne (aggVersions db agg) [] with he | he
          · rw [maxVersion_empty_list he]; omega
          · have := hbound _ (maxVersion_mem he)
            omega
        rw [maxVersion_cons_of_lt rfl hmx]
        simp
      · have hbound2 : ∀ w ∈ aggVersions
            ({ id := db.length, aggregateID := agg, aggregateType := aggType,
               eventType := ev.eventType, eventData := ev.eventData,
               metadata := ev.metadata, version := e + (i : Int) + 1,
               createdAt := now } :: db) agg, w ≤ e + ((i : Int) + 1) := by
          intro w hw
          rw [aggVersions_cons] at hw
          dsimp only at hw
          rw [if_pos rfl] at hw
          rcases List.mem_cons.mp hw with hw | hw
          · omega
          · have := hbound w hw
            omega
        have hm := hmax hr (by omega) (by push_cast; exact hbound2)
        rw [hm]
        simp only [List.length_cons]
        push_cast
        omega

/-! ### `AppendEvents`: serial and two-state characterisations -/

theorem appendEventsFrom_conflict_of_check {checkDb insertDb : EventDB} {agg : Nat}
    {t : String} {e : Int} {evs : List Event} {now : Nat}
    (h : maxVersion checkDb agg ≠ e) :
    appendEventsFrom checkDb insertDb agg t e evs now = .error .concurrencyConflict := by
  simp [appendEventsFrom, h]

theorem appendEventsFrom_of_check_eq {checkDb insertDb : EventDB} {agg : Nat}
    {t : String} {e : Int} {evs : List Event} {now : Nat}
    (h : maxVersion checkDb agg = e) :
    appendEventsFrom checkDb insertDb agg t e evs now =
      insertEvents agg t e now insertDb evs 0 := by
  simp [appendEventsFrom, h]

/-- A serial `AppendEvents` whose version check passes always succeeds,
appending exactly the versions `e + 1 … e + evs.length`. -/
theorem appendEvents_ok_spec {db : EventDB} {agg : Nat} {t : String} {e : Int}
    {evs : List Event} {now : Nat} (h : maxVersion db agg = e) :
    ∃ db', appendEvents db agg t e evs now = .ok db' ∧
      (∀ a, a ≠ agg → aggVersions db' a = aggVersions db a) ∧
      (∀ v : Int, versionCount db' agg v =
        versionCount db agg v + (if e + 1 ≤ v ∧ v ≤ e + (evs.length : Int) then 1 else 0)) ∧
      (evs = [] → db' = db) ∧
      (evs ≠ [] → 0 ≤ e → maxVersion db' agg = e + (evs.length : Int)) := by
  obtain ⟨db', hok, hother, hcount, hnil, hmax⟩ :=
    insertEvents_spec agg t e now evs db 0 (by
      intro k _ _
      refine hasEvent_false_of_gt_max ?_
      rw [h]
      omega)
  refine ⟨db', ?_, hother, ?_, hnil, ?_⟩
  · rw [appendEvents, appendEventsFrom_of_check_eq h]
    exact hok
  · intro v
    have := hcount v
    simpa using this
  · intro hne hpos
    have := hmax hne (by omega) (by
      intro w hw
      have := le_maxVersion_of_mem hw
      omega)
    simpa using this

/-- Serial `AppendEvents` returns `ErrConcurrencyConflict` exactly when the
stored maximum version differs from `expectedVersion`. -/
theorem appendEvents_conflict_iff {db : EventDB} {agg : Nat} {t : String} {e : Int}
    {evs : List Event} {now : Nat} :
    appendEvents db agg t e evs now = .error .concurrencyConflict ↔
      maxVersion db agg ≠ e := by
  constructor
  · intro hc hne
    obtain ⟨db', hok, -⟩ := @appendEvents_ok_spec db agg t e evs now hne
    rw [hok] at hc
    exact Except.noConfusion hc
  · intro hne
    rw [appendEvents]
    exact appendEventsFrom_conflict_of_check hne

/-! ### Well-formedness of reachable stores -/

theorem storeWF_nil : storeWF [] := by
  intro agg v
  have h2 : maxVersion [] agg = 0 := rfl
  rw [h2, if_neg (by omega)]
  rfl

theorem storeWF_max_nonneg {db : EventDB} (h : storeWF db) (agg : Nat) :
    0 ≤ maxVersion db agg := by
  rcases eq_or_ne (aggVersions db agg) [] with he | he
  · rw [maxVersion_empty_list he]
  · have hm := maxVersion_mem he
    have hne : versionCount db agg (maxVersion db agg) ≠ 0 := by
      unfold versionCount
      have := List.count_pos_iff.mpr hm
      omega
    rw [h agg (maxVersion db agg)] at hne
    by_contra hneg
    push_neg at hneg
    rw [if_neg (by omega)] at hne
    exact hne rfl

theorem storeWF_gapless {db : EventDB} (h : storeWF db) (agg : Nat) : gapless db agg := by
  intro v
  rw [hasEvent_iff_count, h agg v]
  split_ifs with hc
  · simp [hc]
  · simp [hc]

theorem gapless_max_nonneg {db : EventDB} {agg : Nat} (h : gapless db agg) :
    0 ≤ maxVersion db agg := by
  rcases eq_or_ne (aggVersions db agg) [] with he | he
  · rw [maxVersion_empty_list he]
  · have hm := maxVersion_mem he
    have := (h (maxVersion db agg)).mp (hasEvent_iff_mem.mpr hm)
    omega

theorem storeWF_preserved {db db' : EventDB} {agg : Nat} {t : String} {e : Int}
    {evs : List Event} {now : Nat} (h : storeWF db)
    (hok : appendEvents db agg t e evs now = .ok db') : storeWF db' := by
  have hmax : maxVersion db agg = e := by
    by_contra hne
    rw [appendEvents_conflict_iff.mpr hne] at hok
    exact Except.noConfusion hok
  obtain ⟨db'', hok2, hother, hcount, hnil, hmx⟩ :=
    @appendEvents_ok_spec db agg t e evs now hmax
  rw [hok] at hok2
  have hdb : db' = db'' := Except.ok.inj hok2
  subst hdb
  have he0 : 0 ≤ e := hmax ▸ storeWF_max_nonneg h agg
  intro a v
  by_cases ha : a = agg
  · subst ha
    rcases eq_or_ne evs [] with hev | hev
    · rw [hnil hev]
      exact h a v
    · rw [hcount v, h a v, hmax, hmx hev he0]
      have hlen : (0 : Int) ≤ (evs.length : Int) := by positivity
      split_ifs <;> omega
  · have hv := hother a ha
    have h1 : versionCount db' a v = versionCount db a v := by
      unfold versionCount; rw [hv]
    have h2 : maxVersion db' a = maxVersion db a := by
      unfold maxVersion; rw [hv]
    rw [h1, h2]
    exact h a v

theorem ESReachable_storeWF {db : EventDB} (h : ESReachable db) : storeWF db := by
  induction h with
  | empty => exact storeWF_nil
  | append db agg t e evs now db' hprev hok ih => exact storeWF_preserved ih hok

/-! ### Claims about the aggregate log store -/

/-- **C1.** `AppendEvents(aggregateId, aggregateType, expectedVersion, events)`
returns `ErrConcurrencyConflict` if and only if the stored maximum version
for the aggregate differs from `expectedVersion` — whether the mismatch is
seen by the initial version read (`checkDb`) or, after a concurrent
committer, by the `(aggregate_id, version)` uniqueness constraint during
insert (`insertDb`) — a uniqueness violation is never reported as a
generic storage error, and when the versions match the call succeeds.
`checkDb` and `insertDb` are two snapshots of the append-only store
(so `maxVersion` only grew between them), each well-formed. -/
theorem c1_append_conflict_iff_version_mismatch :
    (∀ (checkDb insertDb : EventDB) (agg : Nat) (t : String) (e : Int)
        (evs : List Event) (now : Nat),
      gapless checkDb agg → gapless insertDb agg →
      maxVersion checkDb agg ≤ maxVersion insertDb agg →
      evs ≠ [] →
      (appendEventsFrom checkDb insertDb agg t e evs now = .error .concurrencyConflict ↔
        (maxVersion checkDb agg ≠ e ∨ maxVersion insertDb agg ≠ e))) ∧
    (∀ (checkDb insertDb : EventDB) (agg : Nat) (t : String) (e : Int)
        (evs : List Event) (now : Nat) (msg : String),
      appendEventsFrom checkDb insertDb agg t e evs now ≠ .error (.storageFailure msg)) ∧
    (∀ (checkDb insertDb : EventDB) (agg : Nat) (t : String) (e : Int)
        (evs : List Event) (now : Nat),
      maxVersion checkDb agg = e → maxVersion insertDb agg = e →
      ∃ db', appendEventsFrom checkDb insertDb agg t e evs now = .ok db') := by
  have hsucc : ∀ (checkDb insertDb : EventDB) (agg : Nat) (t : String) (e : Int)
      (evs : List Event) (now : Nat),
      maxVersion checkDb agg = e → maxVersion insertDb agg = e →
      ∃ db', appendEventsFrom checkDb insertDb agg t e evs now = .ok db' := by
    intro checkDb insertDb agg t e evs now h1 h2
    obtain ⟨db', hok, -⟩ :=
      insertEvents_spec agg t e now evs insertDb 0 (by
        intro k _ _
        refine hasEvent_false_of_gt_max ?_
        rw [h2]
        omega)
    exact ⟨db', by rw [appendEventsFrom_of_check_eq h1]; exact hok⟩
  refine ⟨?_, ?_, hsucc⟩
  · intro checkDb insertDb agg t e evs now hg1 hg2 hmono hne
    constructor
    · intro hconf
      by_contra hnot
      push_neg at hnot
      obtain ⟨db', hok⟩ :=
        hsucc checkDb insertDb agg t e evs now hnot.1 hnot.2
      rw [hok] at hconf
      exact Except.noConfusion hconf
    · intro hdisj
      by_cases hc : maxVersion checkDb agg = e
      · have hi : maxVersion insertDb agg ≠ e := by
          rcases hdisj with h | h
          · exact absurd hc h
          · exact h
        have he0 : 0 ≤ e := hc ▸ gapless_max_nonneg hg1
        have hgt : e < maxVersion insertDb agg := by
          rw [← hc] at hi ⊢
          omega
        have hhit : hasEvent insertDb agg (e + 1) = true :=
          (hg2 (e + 1)).mpr ⟨by omega, by omega⟩
        cases evs with
        | nil => exact absurd rfl hne
        | cons x rest =>
          rw [appendEventsFrom_of_check_eq hc]
          simp [insertEvents, hhit]
      · exact appendEventsFrom_conflict_of_check hc
  · intro checkDb insertDb agg t e evs now msg
    by_cases hc : maxVersion checkDb agg = e
    · rw [appendEventsFrom_of_check_eq hc]
      rcases insertEvents_total agg t e now evs insertDb 0 with ⟨db', hok⟩ | hconf
      · rw [hok]; intro h; exact Except.noConfusion h
      · rw [hconf]; intro h; injection h with h; exact ESError.noConfusion h
    · rw [appendEventsFrom_conflict_of_check hc]
      intro h; injection h with h; exact ESError.noConfusion h

/-- Witness for C1: a fresh-aggregate append whose version check passed
against an old snapshot hits the uniqueness constraint against the newer
snapshot that already holds version 1, and the result is exactly
`ErrConcurrencyConflict`. -/
theorem c1_witness :
    gapless [] 1 ∧ gapless wdbA 1 ∧
    (appendEventsFrom [] wdbA 1 "t" 0 [testEvent "E" "w"] 5 =
        .error .concurrencyConflict ↔
      (maxVersion ([] : EventDB) 1 ≠ 0 ∨ maxVersion wdbA 1 ≠ 0)) := by
  have hg1 : gapless [] 1 := by
    intro v
    constructor
    · intro h; simp [hasEvent] at h
    · intro h
      have : maxVersion ([] : EventDB) 1 = 0 := rfl
      omega
  have hg2 : gapless wdbA 1 := by
    intro v
    have hm : maxVersion wdbA 1 = 1 := rfl
    rw [hm]
    simp [hasEvent, wdbA, wrowA]
    omega
  refine ⟨hg1, hg2, ?_⟩
  exact c1_append_conflict_iff_version_mismatch.1 _ _ 1 "t" 0 _ 5 hg1 hg2
    (by decide) (by simp)

/-- **C2.** For every aggregate, after any sequence of successful
`AppendEvents` calls the committed versions are exactly `{1..N}`, each on a
unique row; and each successful append with `expectedVersion = V` and `k`
events writes exactly versions `V+1 … V+k` (so `expectedVersion` must have
equalled the current maximum). -/
theorem c2_versions_gapless_and_unique :
    (∀ db : EventDB, ESReachable db →
      ∀ agg v, versionCount db agg v = if 1 ≤ v ∧ v ≤ maxVersion db agg then 1 else 0) ∧
    (∀ (db : EventDB) (agg : Nat) (t : String) (e : Int) (evs : List Event) (now : Nat)
        (db' : EventDB), ESReachable db → appendEvents db agg t e evs now = .ok db' →
      e = maxVersion db agg ∧ maxVersion db' agg = e + (evs.length : Int) ∧
      (∀ v : Int, hasEvent db' agg v = true ↔
        (hasEvent db agg v = true ∨ (e < v ∧ v ≤ e + (evs.length : Int))))) := by
  refine ⟨fun db h => ESReachable_storeWF h, ?_⟩
  intro db agg t e evs now db' hreach hok
  have hwf := ESReachable_storeWF hreach
  have hmax : maxVersion db agg = e := by
    by_contra hne
    rw [appendEvents_conflict_iff.mpr hne] at hok
    exact Except.noConfusion hok
  have he0 : 0 ≤ e := hmax ▸ storeWF_max_nonneg hwf agg
  obtain ⟨db'', hok2, hother, hcount, hnil, hmx⟩ :=
    @appendEvents_ok_spec db agg t e evs now hmax
  rw [hok] at hok2
  have hdb : db' = db'' := Except.ok.inj hok2
  subst hdb
  refine ⟨hmax.symm, ?_, ?_⟩
  · rcases eq_or_ne evs [] with hev | hev
    · subst hev
      rw [hnil rfl]
      simpa using hmax
    · exact hmx hev he0
  · intro v
    rw [hasEvent_iff_count, hasEvent_iff_count, hcount v]
    split_ifs with hc
    · constructor
      · intro _; right; omega
      · intro _; omega
    · constructor
      · intro h; left; omega
      · intro h
        rcases h with h | h
        · omega
        · omega

/-- Witness for C2: the invariant instantiated on a concrete store reached
by two successful appends (versions 1 and 2 of aggregate 1). -/
theorem c2_witness :
    ∀ agg v, versionCount wdbAB agg v =
      if 1 ≤ v ∧ v ≤ maxVersion wdbAB agg then 1 else 0 :=
  c2_versions_gapless_and_unique.1 wdbAB
    (ESReachable.append wdbA 1 "t" 1 [testEvent "B" ""] 0 wdbAB
      (ESReachable.append [] 1 "t" 0 [testEvent "A" ""] 0 wdbA
        ESReachable.empty rfl)
      rfl)

/-- **C9.** `AppendEvents` does not enforce its stated preconditions: an
empty `events` slice with `expectedVersion` equal to the current version
commits as a no-op writing nothing; a negative `expectedVersion` always
fails with `ErrConcurrencyConflict` (on any store whose maximum version is
non-negative, which every reachable store is); and the declared
`ErrInvalidVersion` is never returned. -/
theorem c9_append_preconditions_unenforced :
    (∀ (db : EventDB) (agg : Nat) (t : String) (now : Nat),
      appendEvents db agg t (maxVersion db agg) [] now = .ok db) ∧
    (∀ (db : EventDB) (agg : Nat) (t : String) (e : Int) (evs : List Event) (now : Nat),
      e < 0 → 0 ≤ maxVersion db agg →
      appendEvents db agg t e evs now = .error .concurrencyConflict) ∧
    (∀ (db : EventDB) (agg : Nat) (t : String) (e : Int) (evs : List Event) (now : Nat),
      appendEvents db agg t e evs now ≠ .error .invalidVersion) := by
  refine ⟨?_, ?_, ?_⟩
  · intro db agg t now
    rw [appendEvents, appendEventsFrom_of_check_eq rfl]
    rfl
  · intro db agg t e evs now hneg hpos
    exact appendEvents_conflict_iff.mpr (by omega)
  · intro db agg t e evs now
    by_cases hc : maxVersion db agg = e
    · rw [appendEvents, appendEventsFrom_of_check_eq hc]
      rcases insertEvents_total agg t e now evs db 0 with ⟨db', hok⟩ | hconf
      · rw [hok]; intro h; exact Except.noConfusion h
      · rw [hconf]; intro h; injection h with h; exact ESError.noConfusion h
    · rw [appendEvents, appendEventsFrom_conflict_of_check hc]
      intro h; injection h with h; exact ESError.noConfusion h

/-- Witness for C9: on the empty store (maximum version 0), an append with
`expectedVersion = -1` fails with `ErrConcurrencyConflict`. -/
theorem c9_witness :
    appendEvents [] 1 "item" (-1) [testEvent "E" ""] 3 = .error .concurrencyConflict :=
  c9_append_preconditions_unenforced.2.1 [] 1 "item" (-1) [testEvent "E" ""] 3
    (by decide) (by decide)

/-! ### `LoadEvents`: filtering and ordering -/

theorem mem_insertByVersion {e a : Event} :
    ∀ l : List Event, a ∈ insertByVersion e l ↔ a = e ∨ a ∈ l := by
  intro l
  induction l with
  | nil => simp [insertByVersion]
  | cons x xs ih =>
    simp only [insertByVersion]
    split_ifs with h
    · simp [List.mem_cons]
    · simp only [List.mem_cons, ih]
      tauto

theorem mem_sortByVersion {a : Event} :
    ∀ l : List Event, a ∈ sortByVersion l ↔ a ∈ l := by
  intro l
  induction l with
  | nil => simp [sortByVersion]
  | cons x xs ih => simp [sortByVersion, mem_insertByVersion, ih]

theorem pairwise_insertByVersion {e : Event} :
    ∀ l : List Event, l.Pairwise (fun a b => a.version ≤ b.version) →
      (insertByVersion e l).Pairwise (fun a b => a.version ≤ b.version) := by
  intro l
  induction l with
  | nil => intro _; simp [insertByVersion]
  | cons x xs ih =>
    intro h
    rw [List.pairwise_cons] at h
    obtain ⟨hx, hxs⟩ := h
    simp only [insertByVersion]
    split_ifs with hle
    · refine List.Pairwise.cons ?_ (List.Pairwise.cons hx hxs)
      intro b hb
      rcases List.mem_cons.mp hb with hb | hb
      · subst hb; exact hle
      · exact le_trans hle (hx b hb)
    · refine List.Pairwise.cons ?_ (ih hxs)
      intro b hb
      rcases (mem_insertByVersion xs).mp hb with hb | hb
      · subst hb; omega
      · exact hx b hb

theorem pairwise_sortByVersion :
    ∀ l : List Event, (sortByVersion l).Pairwise (fun a b => a.version ≤ b.version) := by
  intro l
  induction l with
  | nil => simp [sortByVersion]
  | cons x xs ih => exact pairwise_insertByVersion (sortByVersion xs) ih

/-- **C7.** `LoadEvents(aggregateId, fromVersion, toVersion)` returns exactly
the stored events of the aggregate with `version ≥ fromVersion` and, when
`toVersion > 0`, `version ≤ toVersion` (`toVersion = 0` — indeed any
non-positive `toVersion` — meaning no upper bound), ascending by version;
and on the store holding 5 appended events, `fromVersion = 2, toVersion = 0`
yields exactly versions 2–5 in order.  `loadEvents` is a pure function of
the store, so the call has no side effects. -/
theorem c7_loadEvents_range_sorted :
    (∀ (db : EventDB) (agg : Nat) (f t : Int) (ev : Event),
      ev ∈ loadEvents db agg f t ↔
        (ev ∈ db ∧ ev.aggregateID = agg ∧ f ≤ ev.version ∧ (0 < t → ev.version ≤ t))) ∧
    (∀ (db : EventDB) (agg : Nat) (f t : Int),
      (loadEvents db agg f t).Pairwise (fun a b => a.version ≤ b.version)) ∧
    ((loadEvents sampleStore 7 2 0).map (fun ev => ev.version) = [2, 3, 4, 5]) := by
  refine ⟨?_, ?_, by decide⟩
  · intro db agg f t ev
    rw [loadEvents, mem_sortByVersion, List.mem_filter]
    constructor
    · rintro ⟨hm, hp⟩
      simp only [Bool.and_eq_true, beq_iff_eq, decide_eq_true_eq, Bool.or_eq_true,
        Bool.not_eq_true', decide_eq_false_iff_not] at hp
      obtain ⟨⟨h1, h2⟩, h3⟩ := hp
      refine ⟨hm, h1, h2, ?_⟩
      intro ht
      rcases h3 with h3 | h3
      · exact absurd ht h3
      · exact h3
    · rintro ⟨hm, h1, h2, h3⟩
      refine ⟨hm, ?_⟩
      simp only [Bool.and_eq_true, beq_iff_eq, decide_eq_true_eq, Bool.or_eq_true,
        Bool.not_eq_true', decide_eq_false_iff_not]
      refine ⟨⟨h1, h2⟩, ?_⟩
      by_cases ht : 0 < t
      · right; exact h3 ht
      · left; exact ht
  · intro db agg f t
    exact pairwise_sortByVersion _

/-! ### Snapshots -/

theorem saveSnapshot_other {tbl : SnapshotDB} {s : Snapshot} {now a : Nat}
    (ha : a ≠ s.aggregateID) : saveSnapshot tbl s now a = tbl a := by
  simp [saveSnapshot, ha]

theorem saveSnapshot_self_none {tbl : SnapshotDB} {s : Snapshot} {now : Nat}
    (h : tbl s.aggregateID = none) :
    saveSnapshot tbl s now s.aggregateID = some { s with createdAt := now } := by
  simp [saveSnapshot, h]

theorem saveSnapshot_self_replace {tbl : SnapshotDB} {s old : Snapshot} {now : Nat}
    (h : tbl s.aggregateID = some old) (hv : old.version < s.version) :
    saveSnapshot tbl s now s.aggregateID =
      some { old with version := s.version, state := s.state, createdAt := now } := by
  simp [saveSnapshot, h, hv]

theorem saveSnapshot_self_keep {tbl : SnapshotDB} {s old : Snapshot} {now : Nat}
    (h : tbl s.aggregateID = some old) (hv : ¬ old.version < s.version) :
    saveSnapshot tbl s now s.aggregateID = some old := by
  simp [saveSnapshot, h, hv]

/-- **C6.** `SaveSnapshot` is order-insensitive and monotone: a stored
snapshot is replaced only by a strictly higher version — a save whose
version is at most the stored one leaves the table unchanged — and two
saves with versions `v1 < v2` in either order leave the stored snapshot
carrying `v2`'s version and state, provided any previously stored snapshot
is older than `v2`. -/
theorem c6_saveSnapshot_monotone :
    (∀ (tbl : SnapshotDB) (s : Snapshot) (now : Nat) (old : Snapshot),
      tbl s.aggregateID = some old → s.version ≤ old.version →
      saveSnapshot tbl s now = tbl) ∧
    (∀ (tbl : SnapshotDB) (s1 s2 : Snapshot) (n1 n2 : Nat),
      s1.aggregateID = s2.aggregateID → s1.version < s2.version →
      (∀ old, tbl s2.aggregateID = some old → old.version < s2.version) →
      (∃ r, saveSnapshot (saveSnapshot tbl s1 n1) s2 n2 s2.aggregateID = some r ∧
        r.version = s2.version ∧ r.state = s2.state) ∧
      (∃ r, saveSnapshot (saveSnapshot tbl s2 n2) s1 n1 s2.aggregateID = some r ∧
        r.version = s2.version ∧ r.state = s2.state)) := by
  constructor
  · intro tbl s now old hold hle
    funext a
    by_cases ha : a = s.aggregateID
    · rw [ha, saveSnapshot_self_keep hold (by omega), hold]
    · exact saveSnapshot_other ha
  · intro tbl s1 s2 n1 n2 hagg hlt hold
    constructor
    · -- first s1, then s2
      have h1 : ∃ r1, saveSnapshot tbl s1 n1 s2.aggregateID = some r1 ∧
          r1.version < s2.version := by
        rw [← hagg]
        cases htb : tbl s1.aggregateID with
        | none =>
          rw [saveSnapshot_self_none htb]
          exact ⟨_, rfl, by simpa using hlt⟩
        | some old =>
          have holdv : old.version < s2.version := hold old (by rw [← hagg]; exact htb)
          by_cases hcmp : old.version < s1.version
          · rw [saveSnapshot_self_replace htb hcmp]
            exact ⟨_, rfl, by simpa using hlt⟩
          · rw [saveSnapshot_self_keep htb hcmp]
            exact ⟨_, rfl, holdv⟩
      obtain ⟨r1, hr1, hr1v⟩ := h1
      exact ⟨{ r1 with version := s2.version, state := s2.state, createdAt := n2 },
        saveSnapshot_self_replace hr1 hr1v, rfl, rfl⟩
    · -- first s2, then s1
      have h2 : ∃ r2, saveSnapshot tbl s2 n2 s2.aggregateID = some r2 ∧
          r2.version = s2.version ∧ r2.state = s2.state := by
        cases htb : tbl s2.aggregateID with
        | none =>
          rw [saveSnapshot_self_none htb]
          exact ⟨_, rfl, rfl, rfl⟩
        | some old =>
          rw [saveSnapshot_self_replace htb (hold old htb)]
          exact ⟨_, rfl, rfl, rfl⟩
      obtain ⟨r2, hr2, hr2v, hr2s⟩ := h2
      refine ⟨r2, ?_, hr2v, hr2s⟩
      have hr2' : saveSnapshot tbl s2 n2 s1.aggregateID = some r2 := by
        rw [hagg]; exact hr2
      rw [← hagg]
      exact saveSnapshot_self_keep hr2' (by omega)

/-- Witness for C6: absent snapshot, saves with versions 2 then 5 in either
order leave version 5 stored; and re-saving version 5 over version 5 is
the identity. -/
theorem c6_witness :
    ((fun _ => none : SnapshotDB) 9 = none) ∧
    (∃ r, saveSnapshot (saveSnapshot (fun _ => none)
        { aggregateID := 9, aggregateType := "item", version := 2, state := "a", createdAt := 0 } 1)
        { aggregateID := 9, aggregateType := "item", version := 5, state := "b", createdAt := 0 } 2
        9 = some r ∧ r.version = 5 ∧ r.state = "b") ∧
    (∃ r, saveSnapshot (saveSnapshot (fun _ => none)
        { aggregateID := 9, aggregateType := "item", version := 5, state := "b", createdAt := 0 } 2)
        { aggregateID := 9, aggregateType := "item", version := 2, state := "a", createdAt := 0 } 1
        9 = some r ∧ r.version = 5 ∧ r.state = "b") := by
  have h := c6_saveSnapshot_monotone.2 (fun _ => none)
    { aggregateID := 9, aggregateType := "item", version := 2, state := "a", createdAt := 0 }
    { aggregateID := 9, aggregateType := "item", version := 5, state := "b", createdAt := 0 }
    1 2 rfl (by decide) (by intro old h; exact Option.noConfusion h)
  exact ⟨rfl, h.1, h.2⟩

/-! ### Stepping lemmas for the services -/

theorem getMember_some {st : SysState} {id : Nat} {m : Member}
    (h : st.members id = some m) : getMember st id = .ok m := by
  simp [getMember, h]

theorem getItem_some {st : SysState} {id : Nat} {it : Item}
    (h : st.items id = some it) : getItem st id = .ok it := by
  simp [getItem, h]

/-- A single-event append on a matching expected version commits one row
with version `e + 1`. -/
theorem appendEvents_singleton {db : EventDB} {agg : Nat} {t : String} {e : Int}
    {ev : Event} {now : Nat} (h : maxVersion db agg = e) :
    appendEvents db agg t e [ev] now = .ok
      ({ id := db.length, aggregateID := agg, aggregateType := t,
         eventType := ev.eventType, eventData := ev.eventData,
         metadata := ev.metadata, version := e + 1, createdAt := now } :: db) := by
  rw [appendEvents, appendEventsFrom_of_check_eq h]
  have h0 : hasEvent db agg (e + 1) = false := by
    refine hasEvent_false_of_gt_max ?_
    rw [h]
    omega
  simp [insertEvents, h0]

/-- A successful `UpdateItemCopies` in full: the appended
`ItemCopiesUpdated` row and the guarded read-model `UPDATE`. -/
theorem updateItemCopies_ok {st : SysState} {id : Nat} {item : Item}
    {nt na : Int} {now : Nat}
    (hit : st.items id = some item)
    (hsync : maxVersion st.events id = item.version)
    (hok : itemRowOK nt na item.status = true) :
    updateItemCopies st id nt na now = (afterUpdate st id item nt na now, .ok ()) := by
  simp only [updateItemCopies, hit]
  rw [appendEvents_singleton hsync]
  dsimp only
  rw [if_pos hok]
  rfl

theorem afterUpdate_items_self (st : SysState) (id : Nat) (item : Item)
    (nt na : Int) (now : Nat) :
    (afterUpdate st id item nt na now).items id = some (appliedRow item nt na now) := by
  unfold afterUpdate
  dsimp only
  rw [if_pos rfl]

theorem afterUpdate_items_other (st : SysState) (id : Nat) (item : Item)
    (nt na : Int) (now : Nat) (k : Nat) (hk : k ≠ id) :
    (afterUpdate st id item nt na now).items k = st.items k := by
  unfold afterUpdate
  dsimp only
  rw [if_neg hk]

theorem maxVersion_afterUpdate_self (st : SysState) (id : Nat) (item : Item)
    (nt na : Int) (now : Nat) (hsync : maxVersion st.events id = item.version) :
    maxVersion (afterUpdate st id item nt na now).events id = item.version + 1 := by
  unfold afterUpdate
  dsimp only
  rw [maxVersion_cons_of_lt rfl (by dsimp only; omega)]

theorem maxVersion_afterUpdate_other (st : SysState) (id : Nat) (item : Item)
    (nt na : Int) (now : Nat) (agg : Nat) (hne : agg ≠ id) :
    maxVersion (afterUpdate st id item nt na now).events agg = maxVersion st.events agg := by
  unfold afterUpdate
  dsimp only
  exact maxVersion_cons_other (by dsimp only; omega)

theorem maxVersion_afterChk_self (st1 : SysState) (cid m i now : Nat)
    (hcid : maxVersion st1.events cid = 0) :
    maxVersion (afterChk st1 cid m i now).events cid = 1 := by
  unfold afterChk
  dsimp only
  rw [maxVersion_cons_of_lt rfl (by dsimp only; omega)]

theorem maxVersion_afterChk_other (st1 : SysState) (cid m i now : Nat)
    (agg : Nat) (hne : agg ≠ cid) :
    maxVersion (afterChk st1 cid m i now).events agg = maxVersion st1.events agg := by
  unfold afterChk
  dsimp only
  exact maxVersion_cons_other (by dsimp only; omega)

/-! ### The inventory-bound invariant (C3) -/

theorem itemRowOK_bounds {t a : Int} {s : String}
    (h : itemRowOK t a s = true) : 0 ≤ t ∧ 0 ≤ a ∧ a ≤ t := by
  simp only [itemRowOK, Bool.and_eq_true, decide_eq_true_eq] at h
  exact ⟨h.1.1.1, h.1.1.2, h.1.2⟩

theorem itemsInv_updateItemCopies (st : SysState) (id : Nat) (nt na : Int)
    (now : Nat) (h : itemsInv st) : itemsInv (updateItemCopies st id nt na now).1 := by
  unfold updateItemCopies
  split
  · exact h
  · split
    · exact h
    · split_ifs with hok
      · intro id0 it0 hsome
        dsimp only at hsome
        by_cases hk : id0 = id
        · rw [if_pos hk] at hsome
          injection hsome with h'
          obtain ⟨h1, h2, h3⟩ := itemRowOK_bounds hok
          rw [← h']
          exact ⟨h2, h3⟩
        · rw [if_neg hk] at hsome
          exact h id0 it0 hsome
      · exact h

theorem itemsInv_addItem (st : SysState) (id : Nat) (isbn title author : String)
    (tc : Int) (now : Nat) (h : itemsInv st) :
    itemsInv (addItem st id isbn title author tc now).1 := by
  unfold addItem
  split
  · exact h
  · dsimp only
    split_ifs with hdup hok
    · exact h
    · intro id0 it0 hsome
      dsimp only at hsome
      by_cases hk : id0 = id
      · rw [if_pos hk] at hsome
        injection hsome with h'
        obtain ⟨h1, h2, h3⟩ := itemRowOK_bounds hok
        rw [← h']
        exact ⟨h2, h3⟩
      · rw [if_neg hk] at hsome
        exact h id0 it0 hsome
    · exact h

theorem itemsInv_removeItem (st : SysState) (id : Nat) (now : Nat)
    (h : itemsInv st) : itemsInv (removeItem st id now).1 := by
  unfold removeItem
  split
  · exact h
  · next item hit =>
    split
    · exact h
    · split_ifs with hok
      · intro id0 it0 hsome
        dsimp only at hsome
        by_cases hk : id0 = id
        · rw [if_pos hk] at hsome
          injection hsome with h'
          have hb := h id item hit
          rw [← h']
          exact hb
        · rw [if_neg hk] at hsome
          exact h id0 it0 hsome
      · exact h

theorem itemsInv_compensateCheckout (st : SysState) (itemID : Nat)
    (total avail : Int) (now : Nat) (h : itemsInv st) :
    itemsInv (compensateCheckout st itemID total avail now) := by
  unfold compensateCheckout
  exact itemsInv_updateItemCopies st itemID total avail now h

theorem itemsInv_checkoutItem (st : SysState) (memberID itemID cid now : Nat)
    (fa fi : Bool) (h : itemsInv st) :
    itemsInv (checkoutItem st memberID itemID cid now fa fi).1 := by
  unfold checkoutItem
  split
  · exact h
  · next member heqm =>
    split
    · exact h
    · split
      · exact h
      · next item heqi =>
        split
        · exact h
        · split
          · next st1 e heq =>
            have h1 := itemsInv_updateItemCopies st itemID item.totalCopies
              (item.available - 1) now h
            rw [heq] at h1
            exact h1
          · next st1 u heq =>
            have h1 := itemsInv_updateItemCopies st itemID item.totalCopies
              (item.available - 1) now h
            rw [heq] at h1
            dsimp only
            split
            · exact itemsInv_compensateCheckout st1 itemID item.totalCopies
                item.available now h1
            · split
              · exact itemsInv_compensateCheckout st1 itemID item.totalCopies
                  item.available now h1
              · next events' heqa =>
                split
                · exact itemsInv_compensateCheckout _ itemID item.totalCopies
                    item.available now h1
                · exact h1

theorem itemsInv_returnItem (st : SysState) (memberID itemID now : Nat)
    (h : itemsInv st) : itemsInv (returnItem st memberID itemID now).1 := by
  unfold returnItem
  split
  · exact h
  · next checkout heqc =>
    split
    · exact h
    · next item heqi =>
      split
      · next st1 e heq =>
        have h1 := itemsInv_updateItemCopies st itemID item.totalCopies
          (item.available + 1) now h
        rw [heq] at h1
        exact h1
      · next st1 u heq =>
        have h1 := itemsInv_updateItemCopies st itemID item.totalCopies
          (item.available + 1) now h
        rw [heq] at h1
        dsimp only
        split
        · exact itemsInv_updateItemCopies st1 itemID item.totalCopies
            item.available now h1
        · exact h1

/-- **C3.** For every reachable state of the system, every inventory row
satisfies `0 ≤ available ≤ total_copies`: no update path of the catalog
service (`AddItem`, `UpdateItemCopies` — whether invoked directly, by the
checkout decrement, by the return increment or by a compensation —
`RemoveItem`) can commit a violating row, because the `items` table's
`CHECK` constraints make a violating `INSERT`/`UPDATE` fail without
writing. -/
theorem c3_inventory_bounds_invariant :
    ∀ st : SysState, SysReachable st →
      ∀ id it, st.items id = some it → 0 ≤ it.available ∧ it.available ≤ it.totalCopies := by
  have key : ∀ st : SysState, SysReachable st → itemsInv st := by
    intro st h
    induction h with
    | empty => intro id it hsome; exact Option.noConfusion hsome
    | addMember st m hprev ih =>
      intro id it hsome
      exact ih id it hsome
    | addItem st id isbn title author tc now hprev ih =>
      exact itemsInv_addItem st id isbn title author tc now ih
    | updateItemCopies st id nt na now hprev ih =>
      exact itemsInv_updateItemCopies st id nt na now ih
    | removeItem st id now hprev ih =>
      exact itemsInv_removeItem st id now ih
    | checkoutItem st memberID itemID cid now fa fi hprev ih =>
      exact itemsInv_checkoutItem st memberID itemID cid now fa fi ih
    | returnItem st memberID itemID now hprev ih =>
      exact itemsInv_returnItem st memberID itemID now ih
  exact key

/-- Witness for C3: the invariant instantiated on the concrete row stored
by adding one item with 3 copies to the empty database. -/
theorem c3_witness :
    0 ≤ wAddedItem.available ∧ wAddedItem.available ≤ wAddedItem.totalCopies :=
  c3_inventory_bounds_invariant _
    (SysReachable.addItem SysState.empty 1 "i" "t" "a" 3 0 SysReachable.empty)
    1 wAddedItem rfl

/-! ### The missing optimistic check in the checkout saga (C5) -/

/-- **C5.** (refuting evaluation) The Reserving step does not thread the
orchestrator's read version into the decrement: `UpdateItemCopies` has no
`expectedVersion` parameter, and the catalog service re-reads the current
row itself.  Concretely: the orchestrator reads `wItem` (2 available,
version 1); an interfering committed decrement brings the row to
version 2 with 1 available; the orchestrator's decrement — computed from
its stale read as absolute value `2 - 1 = 1` — then *succeeds* instead of
failing with `ConcurrencyConflict`, and the final row shows 1 available:
the interfering decrement is lost. -/
theorem c5_stale_read_decrement_not_rejected :
    ((updateItemCopies wSys 1 2 1 10).1.items 1 = some wItemV2 ∧
      wItemV2.version = 2 ∧ wItem.version = 1) ∧
    ((updateItemCopies (updateItemCopies wSys 1 2 1 10).1 1
        wItem.totalCopies (wItem.available - 1) 11).2 = .ok ()) ∧
    ((updateItemCopies (updateItemCopies wSys 1 2 1 10).1 1
        wItem.totalCopies (wItem.available - 1) 11).1.items 1 = some wItemV3 ∧
      wItemV3.available = 1) :=
  ⟨⟨rfl, rfl, rfl⟩, rfl, rfl, rfl⟩

theorem updateItemCopies_checkouts (st : SysState) (id : Nat) (nt na : Int)
    (now : Nat) : (updateItemCopies st id nt na now).1.checkouts = st.checkouts := by
  unfold updateItemCopies
  split
  · rfl
  · split
    · rfl
    · dsimp only
      split_ifs <;> rfl

/-- The full saga run of a fault-free `CheckoutItem` on an eligible member
and an available, in-sync item: decrement, `ItemCheckedOut` append, row
insert. -/
theorem checkoutItem_ok_run (st : SysState) (m i cid now : Nat)
    (member : Member) (item : Item)
    (hm : st.members m = some member) (hstat : member.status = "active")
    (hfine : member.fineBalance ≤ 0) (hit : st.items i = some item)
    (hav : 0 < item.available) (hub : item.available ≤ item.totalCopies)
    (hsval : ["active", "retired", "lost", "damaged"].contains item.status = true)
    (hsync : maxVersion st.events i = item.version)
    (hcid : maxVersion st.events cid = 0)
    (hrow : st.checkouts.any (fun c => c.id == cid) = false)
    (hne : cid ≠ i) :
    checkoutItem st m i cid now false false =
      ({ afterChk (afterUpdate st i item item.totalCopies (item.available - 1) now)
            cid m i now with
          checkouts := mkCheckoutRow cid m i now 1 :: st.checkouts },
        .ok (mkCheckoutRow cid m i now 0)) := by
  have hok1 : itemRowOK item.totalCopies (item.available - 1) item.status = true := by
    simp only [itemRowOK, Bool.and_eq_true, decide_eq_true_eq]
    exact ⟨⟨⟨by omega, by omega⟩, by omega⟩, hsval⟩
  have hcond : ¬(member.status ≠ "active" ∨ member.fineBalance > 0) := by
    push_neg
    exact ⟨hstat, by omega⟩
  have hmax2 : maxVersion
      (afterUpdate st i item item.totalCopies (item.available - 1) now).events cid = 0 := by
    rw [maxVersion_afterUpdate_other st i item item.totalCopies (item.available - 1) now cid hne]
    exact hcid
  have hany : ((afterUpdate st i item item.totalCopies (item.available - 1) now).checkouts.any
      (fun c => c.id == cid)) = false := hrow
  unfold checkoutItem
  rw [getMember_some hm]
  dsimp only
  rw [if_neg hcond, getItem_some hit]
  dsimp only
  rw [if_neg (by omega : ¬ item.available ≤ 0)]
  rw [updateItemCopies_ok hit hsync hok1]
  dsimp only
  rw [if_neg Bool.false_ne_true]
  rw [appendEvents_singleton hmax2]
  dsimp only
  rw [if_neg (by simp [hany])]
  rfl

/-- The saga run with the fault injected at the `ItemCheckedOut` append:
the inventory decrement committed, the append fails, the bound
compensation runs. -/
theorem checkoutItem_failAppend_run (st : SysState) (m i cid now : Nat) (fi : Bool)
    (member : Member) (item : Item)
    (hm : st.members m = some member) (hstat : member.status = "active")
    (hfine : member.fineBalance ≤ 0) (hit : st.items i = some item)
    (hav : 0 < item.available) (hub : item.available ≤ item.totalCopies)
    (hsval : ["active", "retired", "lost", "damaged"].contains item.status = true)
    (hsync : maxVersion st.events i = item.version) :
    checkoutItem st m i cid now true fi =
      (compensateCheckout (afterUpdate st i item item.totalCopies (item.available - 1) now)
          i item.totalCopies item.available now,
        .error .sqlFailure) := by
  have hok1 : itemRowOK item.totalCopies (item.available - 1) item.status = true := by
    simp only [itemRowOK, Bool.and_eq_true, decide_eq_true_eq]
    exact ⟨⟨⟨by omega, by omega⟩, by omega⟩, hsval⟩
  have hcond : ¬(member.status ≠ "active" ∨ member.fineBalance > 0) := by
    push_neg
    exact ⟨hstat, by omega⟩
  unfold checkoutItem
  rw [getMember_some hm]
  dsimp only
  rw [if_neg hcond, getItem_some hit]
  dsimp only
  rw [if_neg (by omega : ¬ item.available ≤ 0)]
  rw [updateItemCopies_ok hit hsync hok1]
  dsimp only
  rw [if_pos rfl]

/-- The saga run with the fault injected at the read-model insert of the
Recording step: decrement and `ItemCheckedOut` append committed, insert
fails, the bound compensation runs. -/
theorem checkoutItem_failInsert_run (st : SysState) (m i cid now : Nat)
    (member : Member) (item : Item)
    (hm : st.members m = some member) (hstat : member.status = "active")
    (hfine : member.fineBalance ≤ 0) (hit : st.items i = some item)
    (hav : 0 < item.available) (hub : item.available ≤ item.totalCopies)
    (hsval : ["active", "retired", "lost", "damaged"].contains item.status = true)
    (hsync : maxVersion st.events i = item.version)
    (hcid : maxVersion st.events cid = 0)
    (hne : cid ≠ i) :
    checkoutItem st m i cid now false true =
      (compensateCheckout
          (afterChk (afterUpdate st i item item.totalCopies (item.available - 1) now)
            cid m i now)
          i item.totalCopies item.available now,
        .error .sqlFailure) := by
  have hok1 : itemRowOK item.totalCopies (item.available - 1) item.status = true := by
    simp only [itemRowOK, Bool.and_eq_true, decide_eq_true_eq]
    exact ⟨⟨⟨by omega, by omega⟩, by omega⟩, hsval⟩
  have hcond : ¬(member.status ≠ "active" ∨ member.fineBalance > 0) := by
    push_neg
    exact ⟨hstat, by omega⟩
  have hmax2 : maxVersion
      (afterUpdate st i item item.totalCopies (item.available - 1) now).events cid = 0 := by
    rw [maxVersion_afterUpdate_other st i item item.totalCopies (item.available - 1) now cid hne]
    exact hcid
  unfold checkoutItem
  rw [getMember_some hm]
  dsimp only
  rw [if_neg hcond, getItem_some hit]
  dsimp only
  rw [if_neg (by omega : ¬ item.available ≤ 0)]
  rw [updateItemCopies_ok hit hsync hok1]
  dsimp only
  rw [if_neg Bool.false_ne_true]
  rw [appendEvents_singleton hmax2]
  dsimp only
  rw [if_pos (Or.inl rfl)]
  rfl

/-- **C4.** If the Checkout saga fails at the Recording step — the
`ItemCheckedOut` append or the checkout-row insert fails after the
inventory decrement committed — then `CheckoutItem` runs the bound
compensation and returns an error, and afterwards the item's available
count equals its pre-checkout value and no checkout record exists
(the `checkouts` table is exactly as before the call). -/
theorem c4_recording_failure_compensates :
    ∀ (st : SysState) (m i cid now : Nat) (fa fi : Bool)
      (member : Member) (item : Item),
      st.members m = some member → member.status = "active" →
      member.fineBalance ≤ 0 → st.items i = some item →
      0 < item.available → item.available ≤ item.totalCopies →
      ["active", "retired", "lost", "damaged"].contains item.status = true →
      maxVersion st.events i = item.version →
      maxVersion st.events cid = 0 →
      cid ≠ i →
      (fa = true ∨ fi = true) →
      ∃ st' err, checkoutItem st m i cid now fa fi = (st', .error err) ∧
        st'.checkouts = st.checkouts ∧
        (∃ it', st'.items i = some it' ∧ it'.available = item.available) := by
  intro st m i cid now fa fi member item hm hstat hfine hit hav hub hsval hsync hcid hne hfail
  have hokC : itemRowOK item.totalCopies item.available item.status = true := by
    simp only [itemRowOK, Bool.and_eq_true, decide_eq_true_eq]
    exact ⟨⟨⟨by omega, by omega⟩, by omega⟩, hsval⟩
  by_cases hfa : fa = true
  · subst hfa
    rw [checkoutItem_failAppend_run st m i cid now fi member item
      hm hstat hfine hit hav hub hsval hsync]
    refine ⟨_, _, rfl, ?_, ?_⟩
    · simp only [compensateCheckout]
      rw [updateItemCopies_checkouts]
      rfl
    · have hsyncS : maxVersion
          (afterUpdate st i item item.totalCopies (item.available - 1) now).events i =
          (appliedRow item item.totalCopies (item.available - 1) now).version := by
        rw [maxVersion_afterUpdate_self st i item item.totalCopies (item.available - 1) now hsync]
        rfl
      simp only [compensateCheckout]
      rw [updateItemCopies_ok
        (afterUpdate_items_self st i item item.totalCopies (item.available - 1) now)
        hsyncS hokC]
      exact ⟨_, afterUpdate_items_self _ _ _ _ _ _, rfl⟩
  · have hfa0 : fa = false := by
      cases fa
      · rfl
      · exact absurd rfl hfa
    subst hfa0
    rcases hfail with h | h
    · exact absurd h hfa
    · subst h
      rw [checkoutItem_failInsert_run st m i cid now member item
        hm hstat hfine hit hav hub hsval hsync hcid hne]
      refine ⟨_, _, rfl, ?_, ?_⟩
      · simp only [compensateCheckout]
        rw [updateItemCopies_checkouts]
        rfl
      · have hitX : (afterChk (afterUpdate st i item item.totalCopies (item.available - 1) now)
            cid m i now).items i =
            some (appliedRow item item.totalCopies (item.available - 1) now) :=
          afterUpdate_items_self st i item item.totalCopies (item.available - 1) now
        have hsyncX : maxVersion
            (afterChk (afterUpdate st i item item.totalCopies (item.available - 1) now)
              cid m i now).events i =
            (appliedRow item item.totalCopies (item.available - 1) now).version := by
          rw [maxVersion_afterChk_other _ cid m i now i (Ne.symm hne),
            maxVersion_afterUpdate_self st i item item.totalCopies (item.available - 1) now hsync]
          rfl
        simp only [compensateCheckout]
        rw [updateItemCopies_ok hitX hsyncX hokC]
        exact ⟨_, afterUpdate_items_self _ _ _ _ _ _, rfl⟩

/-- Witness for C4: on the concrete database `wSys`, a checkout with the
fault injected at the `ItemCheckedOut` append errors out, leaves no
checkout row, and restores the available count to 2. -/
theorem c4_witness :
    ∃ st' err, checkoutItem wSys 2 1 5 40 true false = (st', .error err) ∧
      st'.checkouts = wSys.checkouts ∧
      (∃ it', st'.items 1 = some it' ∧ it'.available = wItem.available) :=
  c4_recording_failure_compensates wSys 2 1 5 40 true false wMember wItem
    rfl rfl (by decide) rfl (by decide) (by decide) (by decide)
    (by decide) (by decide) (by decide) (Or.inl rfl)

/-- **C10.** Every checkout record created by a successful `CheckoutItem`
carries a due date exactly 14 days after the checkout time
(`time.Now().AddDate(0, 0, 14)`, the clock modelled in days): the spec's
unnamed fixed loan period is 14 days, on both the returned record and the
inserted read-model row. -/
theorem c10_due_date_fourteen_days :
    ∀ (st : SysState) (m i cid now : Nat) (fa fi : Bool)
      (st' : SysState) (rec : CheckoutRow),
      checkoutItem st m i cid now fa fi = (st', .ok rec) →
      rec.dueDate = now + 14 ∧ rec.checkoutDate = now ∧
        ∃ c ∈ st'.checkouts, c.id = rec.id ∧ c.dueDate = now + 14 := by
  intro st m i cid now fa fi st' rec h
  unfold checkoutItem at h
  dsimp only at h
  split at h
  · simp at h
  · split at h
    · simp at h
    · split at h
      · simp at h
      · split at h
        · simp at h
        · split at h
          · simp at h
          · split at h
            · simp at h
            · split at h
              · simp at h
              · split at h
                · simp at h
                · rw [Prod.mk.injEq] at h
                  obtain ⟨h1, h2⟩ := h
                  injection h2 with h2
                  subst h1
                  subst h2
                  refine ⟨rfl, rfl, ?_⟩
                  exact ⟨_, List.mem_cons_self _ _, rfl, rfl⟩

/-- Witness for C10: the successful checkout on `wSys` at time 40 returns
the record `wCheckoutRec`, whose due date is `40 + 14`. -/
theorem c10_witness :
    ∃ st', checkoutItem wSys 2 1 5 40 false false = (st', .ok wCheckoutRec) ∧
      wCheckoutRec.dueDate = 40 + 14 ∧ wCheckoutRec.checkoutDate = 40 := by
  have h2 : (checkoutItem wSys 2 1 5 40 false false).2 = .ok wCheckoutRec := rfl
  have hpair : checkoutItem wSys 2 1 5 40 false false =
      ((checkoutItem wSys 2 1 5 40 false false).1, .ok wCheckoutRec) := by
    rw [← h2]
  have hc := c10_due_date_fourteen_days wSys 2 1 5 40 false false
    (checkoutItem wSys 2 1 5 40 false false).1 wCheckoutRec hpair
  exact ⟨_, hpair, hc.1, hc.2.1⟩

/-- `ReturnItem` when no active checkout row matches: `NotFound`, state
untouched. -/
theorem returnItem_notFound (st : SysState) (m i now : Nat)
    (h : st.checkouts.find?
      (fun c => c.memberID == m && c.itemID == i && c.status == "active") = none) :
    returnItem st m i now = (st, .error .notFound) := by
  unfold returnItem
  rw [show getActiveCheckout st m i = .error .notFound from by
    simp [getActiveCheckout, h]]

/-- The full run of a successful `ReturnItem` whose active checkout row is
at the head of the `checkouts` table: increment, `ItemReturned` append
against the row's version, row flipped to `returned`. -/
theorem returnItem_ok_run (st1 : SysState) (m i now2 : Nat) (chk : CheckoutRow)
    (rest : List CheckoutRow) (item2 : Item)
    (hck : st1.checkouts = chk :: rest)
    (hchkm : chk.memberID = m) (hchki : chk.itemID = i) (hchks : chk.status = "active")
    (hit2 : st1.items i = some item2)
    (hok2 : itemRowOK item2.totalCopies (item2.available + 1) item2.status = true)
    (hsync2 : maxVersion st1.events i = item2.version)
    (hchk : maxVersion st1.events chk.id = chk.version)
    (hne2 : chk.id ≠ i) :
    returnItem st1 m i now2 =
      ({ afterRet (afterUpdate st1 i item2 item2.totalCopies (item2.available + 1) now2)
            chk.id m i now2 chk.version with
          checkouts :=
            { chk with status := "returned", returnDate := some now2, updatedAt := now2 } ::
              rest.map (fun c => if c.id = chk.id then
                  { c with status := "returned", returnDate := some now2, updatedAt := now2 }
                else c) },
        .ok ()) := by
  have hga : getActiveCheckout st1 m i = .ok chk := by
    unfold getActiveCheckout
    rw [hck, List.find?_cons_of_pos _ (by simp [hchkm, hchki, hchks])]
  have hmaxchk : maxVersion
      (afterUpdate st1 i item2 item2.totalCopies (item2.available + 1) now2).events chk.id =
      chk.version := by
    rw [maxVersion_afterUpdate_other st1 i item2 item2.totalCopies (item2.available + 1)
      now2 chk.id hne2]
    exact hchk
  unfold returnItem
  rw [hga]
  dsimp only
  rw [getItem_some hit2]
  dsimp only
  rw [updateItemCopies_ok hit2 hsync2 hok2]
  dsimp only
  rw [appendEvents_singleton hmaxchk]
  dsimp only
  rw [show (afterUpdate st1 i item2 item2.totalCopies (item2.available + 1) now2).checkouts
    = chk :: rest from hck]
  rw [List.map_cons, if_pos rfl]
  rfl

/-- **C8.** A successful `CheckoutItem` followed by a successful
`ReturnItem` for the same `(memberId, itemId)` is a round trip on
inventory: the final available count equals the pre-checkout count, and
the checkout record transitions `active → returned` exactly once (the
record is `active` after the checkout, `returned` after the return, and a
further `ReturnItem` fails with `NotFound` leaving the state unchanged). -/
theorem c8_checkout_return_roundtrip :
    ∀ (st : SysState) (m i cid now now2 now3 : Nat) (member : Member) (item : Item),
      st.members m = some member → member.status = "active" →
      member.fineBalance ≤ 0 → st.items i = some item →
      0 < item.available → item.available ≤ item.totalCopies →
      ["active", "retired", "lost", "damaged"].contains item.status = true →
      maxVersion st.events i = item.version →
      maxVersion st.events cid = 0 →
      st.checkouts.any (fun c => c.id == cid) = false →
      cid ≠ i →
      (∀ c ∈ st.checkouts, ¬(c.memberID = m ∧ c.itemID = i ∧ c.status = "active")) →
      ∃ st1 rec st2,
        checkoutItem st m i cid now false false = (st1, .ok rec) ∧
        rec.status = "active" ∧ rec.id = cid ∧
        (∃ c ∈ st1.checkouts, c.id = cid ∧ c.status = "active") ∧
        returnItem st1 m i now2 = (st2, .ok ()) ∧
        (∃ it', st2.items i = some it' ∧ it'.available = item.available) ∧
        (∃ c ∈ st2.checkouts, c.id = cid ∧ c.status = "returned") ∧
        returnItem st2 m i now3 = (st2, .error .notFound) := by
  intro st m i cid now now2 now3 member item hm hstat hfine hit hav hub hsval hsync
    hcid hrow hne hactive
  have hrun1 := checkoutItem_ok_run st m i cid now member item
    hm hstat hfine hit hav hub hsval hsync hcid hrow hne
  have hit2 : ({ afterChk (afterUpdate st i item item.totalCopies (item.available - 1) now)
        cid m i now with
      checkouts := mkCheckoutRow cid m i now 1 :: st.checkouts } : SysState).items i =
      some (appliedRow item item.totalCopies (item.available - 1) now) :=
    afterUpdate_items_self st i item item.totalCopies (item.available - 1) now
  have hok2 : itemRowOK
      (appliedRow item item.totalCopies (item.available - 1) now).totalCopies
      ((appliedRow item item.totalCopies (item.available - 1) now).available + 1)
      (appliedRow item item.totalCopies (item.available - 1) now).status = true := by
    show itemRowOK item.totalCopies (item.available - 1 + 1) item.status = true
    simp only [itemRowOK, Bool.and_eq_true, decide_eq_true_eq]
    exact ⟨⟨⟨by omega, by omega⟩, by omega⟩, hsval⟩
  have hsync2 : maxVersion
      ({ afterChk (afterUpdate st i item item.totalCopies (item.available - 1) now)
          cid m i now with
        checkouts := mkCheckoutRow cid m i now 1 :: st.checkouts } : SysState).events i =
      (appliedRow item item.totalCopies (item.available - 1) now).version := by
    show maxVersion
      (afterChk (afterUpdate st i item item.totalCopies (item.available - 1) now)
        cid m i now).events i = _
    rw [maxVersion_afterChk_other _ cid m i now i (Ne.symm hne),
      maxVersion_afterUpdate_self st i item item.totalCopies (item.available - 1) now hsync]
    rfl
  have hchk2 : maxVersion
      ({ afterChk (afterUpdate st i item item.totalCopies (item.available - 1) now)
          cid m i now with
        checkouts := mkCheckoutRow cid m i now 1 :: st.checkouts } : SysState).events
        (mkCheckoutRow cid m i now 1).id =
      (mkCheckoutRow cid m i now 1).version := by
    show maxVersion
      (afterChk (afterUpdate st i item item.totalCopies (item.available - 1) now)
        cid m i now).events cid = (1 : Int)
    exact maxVersion_afterChk_self _ cid m i now
      (by rw [maxVersion_afterUpdate_other st i item item.totalCopies (item.available - 1)
          now cid hne]
          exact hcid)
  have hrun2 := returnItem_ok_run
    ({ afterChk (afterUpdate st i item item.totalCopies (item.available - 1) now)
        cid m i now with
      checkouts := mkCheckoutRow cid m i now 1 :: st.checkouts })
    m i now2 (mkCheckoutRow cid m i now 1) st.checkouts
    (appliedRow item item.totalCopies (item.available - 1) now)
    rfl rfl rfl rfl hit2 hok2 hsync2 hchk2 hne
  refine ⟨_, _, _, hrun1, rfl, rfl, ?_, hrun2, ?_, ?_, ?_⟩
  · exact ⟨mkCheckoutRow cid m i now 1, List.mem_cons_self _ _, rfl, rfl⟩
  · refine ⟨_, afterUpdate_items_self _ _ _ _ _ _, ?_⟩
    show (appliedRow item item.totalCopies (item.available - 1) now).available + 1 =
      item.available
    show item.available - 1 + 1 = item.available
    omega
  · refine ⟨_, List.mem_cons_self _ _, rfl, rfl⟩
  · refine returnItem_notFound _ m i now3 (List.find?_eq_none.mpr ?_)
    intro x hx
    rcases List.mem_cons.mp hx with h | h
    · subst h
      simp [mkCheckoutRow]
    · rcases List.mem_map.mp h with ⟨c, hc, hfc⟩
      subst hfc
      by_cases hcc : c.id = (mkCheckoutRow cid m i now 1).id
      · rw [if_pos hcc]
        simp
      · rw [if_neg hcc]
        intro hpx
        simp only [Bool.and_eq_true, beq_iff_eq] at hpx
        exact hactive c hc ⟨hpx.1.1, hpx.1.2, hpx.2⟩

/-- Witness for C8: on `wSys` (2 copies available), checkout at time 40
then return at time 50 restores `available = 2`, the record flips
`active → returned`, and a second return at time 60 is `NotFound`. -/
theorem c8_witness :
    ∃ st1 rec st2,
      checkoutItem wSys 2 1 5 40 false false = (st1, .ok rec) ∧
      rec.status = "active" ∧ rec.id = 5 ∧
      (∃ c ∈ st1.checkouts, c.id = 5 ∧ c.status = "active") ∧
      returnItem st1 2 1 50 = (st2, .ok ()) ∧
      (∃ it', st2.items 1 = some it' ∧ it'.available = wItem.available) ∧
      (∃ c ∈ st2.checkouts, c.id = 5 ∧ c.status = "returned") ∧
      returnItem st2 2 1 60 = (st2, .error .notFound) :=
  c8_checkout_return_roundtrip wSys 2 1 5 40 50 60 wMember wItem
    rfl rfl (by decide) rfl (by decide) (by decide) (by decide) (by decide)
    (by decide) (by decide) (by decide)
    (by intro c hc; exact absurd hc (List.not_mem_nil c))

end LibraNexus
